import Mathlib

/-!
# Auction engine of the ao-platform backend

Shallow embedding of the market/auction subsystem
(`src/controllers/market.controller.ts` together with the `Post` and `Bid`
models of `prisma/schema.prisma`).

Monetary amounts are exact decimals in the source (`Decimal`); they are
embedded as rationals.  Timestamps are embedded as integers (milliseconds
since the epoch, the resolution of JavaScript `Date`).  The relational
store is a pair of lists of rows; a Prisma `orderBy` clause is embedded as
a deterministic (insertion) sort on the requested key.
-/

deriving instance DecidableEq for Except

namespace AoMarket

/-- A row of the `posts` table, restricted to the fields the auction
subsystem reads and writes. -/
structure Post where
  id : String
  authorId : String
  isInMarket : Bool
  startingPrice : Option Rat
  reservePrice : Option Rat
  auctionEndAt : Option Int
deriving Repr, DecidableEq

/-- A row of the `Bid` table. -/
structure Bid where
  id : String
  postId : String
  bidderId : String
  amount : Rat
  createdAt : Int
deriving Repr, DecidableEq

/-- The relational store: the rows of the two tables, in insertion order. -/
structure DB where
  posts : List Post
  bids : List Bid
deriving Repr, DecidableEq

/-- All bid rows belonging to one post (Prisma relation `post.bids`,
also the `_count.bids` / `bid.findMany where postId` queries). -/
def postBids (db : DB) (pid : String) : List Bid :=
  db.bids.filter (fun b => b.postId == pid)

/-- Denotation of a Prisma `orderBy: \x7b key: "desc" \x7d` clause: a
deterministic sort placing larger keys first. -/
def sortByDesc {α β : Type} [LinearOrder β] (key : α → β) (l : List α) : List α :=
  List.insertionSort (fun a b => key b ≤ key a) l

/-- `post.bids` with `orderBy: \x7b amount: "desc" \x7d`. -/
def bidsByAmountDesc (db : DB) (pid : String) : List Bid :=
  sortByDesc (fun b => b.amount) (postBids db pid)

/-- `post.bids` with `orderBy: \x7b createdAt: "desc" \x7d`. -/
def bidsByCreatedDesc (db : DB) (pid : String) : List Bid :=
  sortByDesc (fun b => b.createdAt) (postBids db pid)

/-- `prisma.post.findUnique(\x7b where: \x7b id: postId \x7d \x7d)`. -/
def findPost? (db : DB) (pid : String) : Option Post :=
  db.posts.find? (fun p => p.id == pid)

/-- `prisma.post.findFirst(\x7b where: \x7b id: postId, authorId: userId \x7d \x7d)`. -/
def findOwnedPost? (db : DB) (pid uid : String) : Option Post :=
  db.posts.find? (fun p => p.id == pid && p.authorId == uid)

/-- `prisma.post.update(\x7b where: \x7b id: pid \x7d, data \x7d)`: apply `f` to every
row whose `id` matches. -/
def updatePost (db : DB) (pid : String) (f : Post → Post) : DB :=
  { db with posts := db.posts.map (fun q => if q.id == pid then f q else q) }

/-- Error responses of `placeBid` (each is a distinct early `return`). -/
inductive BidError
  | invalidAmount
  | notFound
  | notInMarket
  | selfBid
  | auctionEnded
  | bidTooLow
deriving Repr, DecidableEq

/-- `post.bids[0]?.amount || post.startingPrice` where `post.bids` was
fetched with `orderBy: \x7b amount: "desc" \x7d, take: 1`.  A `Decimal` is a
truthy object even when it is zero, so the fallback to `startingPrice`
happens exactly when the post has no bids. -/
def currentHighestBid? (db : DB) (pid : String) (post : Post) : Option Rat :=
  match (bidsByAmountDesc db pid).head? with
  | some b => some b.amount
  | none => post.startingPrice

/-- `currentHighestBid || 0`: the value the incoming amount is compared
against (`null` falls back to `0`). -/
def currentHighestOr0 (db : DB) (pid : String) (post : Post) : Rat :=
  (currentHighestBid? db pid post).getD 0

/-- `post.auctionEndAt && new Date() > post.auctionEndAt`: the expiry
check fires only when the end timestamp is set and strictly in the past. -/
def auctionExpired (post : Post) (now : Int) : Bool :=
  match post.auctionEndAt with
  | some e => decide (e < now)
  | none => false

/-- Step 7 of `placeBid`: `bid.findFirst` on the (post, bidder) pair, then
either `bid.update` of that row's amount or `bid.create` of a fresh row. -/
def recordBid (db : DB) (now : Int) (pid uid : String) (amount : Rat)
    (newId : String) : Except BidError Bid × DB :=
  match db.bids.find? (fun b => b.postId == pid && b.bidderId == uid) with
  | some eb =>
    (.ok { eb with amount := amount },
     { db with
       bids := db.bids.map (fun b =>
         if b.id == eb.id then { b with amount := amount } else b) })
  | none =>
    let nb : Bid :=
      { id := newId, postId := pid, bidderId := uid,
        amount := amount, createdAt := now }
    (.ok nb, { db with bids := db.bids ++ [nb] })

/-- `placeBid` (market.controller.ts, lines 172–287).  `now` is the value
of `new Date()` during the request, `newId` the id the store would assign
to a freshly created bid row.  Returns the HTTP outcome and the store
after the call. -/
def placeBid (db : DB) (now : Int) (pid uid : String) (amount : Rat)
    (newId : String) : Except BidError Bid × DB :=
  if amount ≤ 0 then (.error .invalidAmount, db)
  else
    match findPost? db pid with
    | none => (.error .notFound, db)
    | some post =>
      if post.isInMarket = false then (.error .notInMarket, db)
      else if post.authorId = uid then (.error .selfBid, db)
      else if auctionExpired post now then (.error .auctionEnded, db)
      else if amount ≤ currentHighestOr0 db pid post then (.error .bidTooLow, db)
      else recordBid db now pid uid amount newId

/-- Error responses of `moveToMarket`. -/
inductive ListError
  | invalidPrice
  | invalidDuration
  | notFoundOrNotOwner
  | alreadyInMarket
deriving Repr, DecidableEq

/-- The `data` object of the `post.update` call in `moveToMarket`:
`isInMarket: true`, the starting price as an exact decimal, the reserve
price mapped to `null` when absent or zero (`reservePrice ? … : null`,
where a zero `Decimal` input is falsy as a number in the request body),
and the computed end timestamp. -/
def listFields (startingPrice : Rat) (reservePrice : Option Rat) (endAt : Int)
    (q : Post) : Post :=
  { q with isInMarket := true
           startingPrice := some startingPrice
           reservePrice :=
             match reservePrice with
             | some r => if r = 0 then none else some r
             | none => none
           auctionEndAt := some endAt }

/-- `moveToMarket` (market.controller.ts, lines 91–169).  `auctionDuration`
is in hours; the end timestamp is `now + duration·3 600 000` ms, truncated
to the integer milliseconds `new Date` keeps. -/
def moveToMarket (db : DB) (now : Int) (pid uid : String) (startingPrice : Rat)
    (reservePrice : Option Rat) (auctionDuration : Rat) : Except ListError Post × DB :=
  if startingPrice ≤ 0 then (.error .invalidPrice, db)
  else if auctionDuration ≤ 0 then (.error .invalidDuration, db)
  else
    match findOwnedPost? db pid uid with
    | none => (.error .notFoundOrNotOwner, db)
    | some post =>
      if post.isInMarket then (.error .alreadyInMarket, db)
      else
        let endAt : Int := now + ⌊auctionDuration * 3600000⌋
        (.ok (listFields startingPrice reservePrice endAt post),
         updatePost db pid (listFields startingPrice reservePrice endAt))

/-- Error responses of `removeFromMarket`. -/
inductive UnlistError
  | notFoundOrNotOwner
  | notInMarket
  | hasBids
deriving Repr, DecidableEq

/-- Clearing of the market fields performed by `removeFromMarket`. -/
def clearMarket (q : Post) : Post :=
  { q with isInMarket := false, startingPrice := none,
           reservePrice := none, auctionEndAt := none }

/-- `removeFromMarket` (market.controller.ts, lines 438–501). -/
def removeFromMarket (db : DB) (pid uid : String) : Except UnlistError Post × DB :=
  match findOwnedPost? db pid uid with
  | none => (.error .notFoundOrNotOwner, db)
  | some post =>
    if post.isInMarket = false then (.error .notInMarket, db)
    else if 0 < (postBids db pid).length then (.error .hasBids, db)
    else (.ok (clearMarket post), updatePost db pid clearMarket)

/-- Error responses of `getAuctionDetails`. -/
inductive DetailError
  | notFound
  | notInMarket
deriving Repr, DecidableEq

/-- Body of the `getAuctionDetails` response. -/
structure AuctionDetail where
  post : Post
  bids : List Bid
  currentBid : Option Rat
  highestBidderId : Option String
  timeLeft : Int
  isActive : Bool
deriving Repr, DecidableEq

/-- `getAuctionDetails` (market.controller.ts, lines 290–356): bids are
fetched with `orderBy: \x7b createdAt: "desc" \x7d`; `currentHighestBid` is
`post.bids[0]`, the head of that createdAt-descending list. -/
def getAuctionDetails (db : DB) (now : Int) (pid : String) :
    Except DetailError AuctionDetail :=
  match findPost? db pid with
  | none => .error .notFound
  | some post =>
    if post.isInMarket = false then .error .notInMarket
    else
      let sorted := bidsByCreatedDesc db pid
      let top := sorted.head?
      let timeLeft : Int :=
        match post.auctionEndAt with
        | some e => max 0 (e - now)
        | none => 0
      .ok { post := post
            bids := sorted
            currentBid :=
              match top with
              | some b => some b.amount
              | none => post.startingPrice
            highestBidderId := top.map (fun b => b.bidderId)
            timeLeft := timeLeft
            isActive := 0 < timeLeft }

/-- The `where` clause shared by the `endedAuctions` count and the
`highestSale` query: `isInMarket: true, auctionEndAt: \x7b lt: now \x7d`
(a `lt` filter never matches a null column). -/
def isEndedListing (now : Int) (p : Post) : Bool :=
  p.isInMarket &&
    (match p.auctionEndAt with
     | some e => decide (e < now)
     | none => false)

/-- The `activeAuctions` filter: `isInMarket: true, auctionEndAt: \x7b gt: now \x7d`. -/
def isActiveListing (now : Int) (p : Post) : Bool :=
  p.isInMarket &&
    (match p.auctionEndAt with
     | some e => decide (now < e)
     | none => false)

/-- Number of bid rows of a post (`_count.bids`, `orderBy bids _count`). -/
def bidCount (db : DB) (pid : String) : Nat :=
  (postBids db pid).length

/-- Body of the `getMarketStats` response.  `highestSale` carries the
selected post together with its reported `finalPrice`
(`highestSale.bids[0]?.amount || 0`). -/
structure MarketStats where
  activeAuctions : Nat
  endedAuctions : Nat
  totalBids : Nat
  highestSale : Option (Post × Rat)
deriving Repr, DecidableEq

/-- `getMarketStats` (market.controller.ts, lines 504–565).  The
`highestSale` lookup is a `findFirst` over ended in-market posts with
`orderBy: \x7b bids: \x7b _count: "desc" \x7d \x7d`: the first element of the
candidates sorted by bid count, descending. -/
def getMarketStats (db : DB) (now : Int) : MarketStats :=
  let ended := db.posts.filter (isEndedListing now)
  { activeAuctions := (db.posts.filter (isActiveListing now)).length
    endedAuctions := ended.length
    totalBids := db.bids.length
    highestSale :=
      ((sortByDesc (fun p => bidCount db p.id) ended).head?).map
        (fun p =>
          (p, (((bidsByAmountDesc db p.id).head?).map (fun b => b.amount)).getD 0)) }

/-! ## Specification-side predicates -/

/-- `m` is the maximum bid amount over all bids of post `pid` (the spec's
`currentHighest` when bids exist, and the spec's leader amount). -/
def maxAmountIs (db : DB) (pid : String) (m : Rat) : Prop :=
  (∃ b ∈ postBids db pid, b.amount = m) ∧ ∀ b ∈ postBids db pid, b.amount ≤ m

instance (db : DB) (pid : String) (m : Rat) : Decidable (maxAmountIs db pid m) := by
  unfold maxAmountIs
  infer_instance

/-- The spec's Bid invariant: at most one Bid row per (post, bidder) pair. -/
def atMostOneBidPer (db : DB) : Prop :=
  ∀ pid uid : String,
    ((db.bids.filter (fun b => b.postId == pid && b.bidderId == uid)).length ≤ 1)

/-- The spec's Post invariant: `isInMarket == true` iff the market fields
are populated (the reserve price may be null even when listed), and an
unlisted post has all three market fields null. -/
def PostWF (p : Post) : Prop :=
  (p.isInMarket = true ↔ (p.startingPrice ≠ none ∧ p.auctionEndAt ≠ none)) ∧
  (p.isInMarket = false →
    p.startingPrice = none ∧ p.reservePrice = none ∧ p.auctionEndAt = none)

instance (p : Post) : Decidable (PostWF p) := by
  unfold PostWF
  infer_instance

/-- The Post invariant, over every row of the store. -/
def DBWF (db : DB) : Prop := ∀ p ∈ db.posts, PostWF p

instance (db : DB) : Decidable (DBWF db) := by
  unfold DBWF
  infer_instance

/-! ## Concrete fixtures used by witnesses and counterexamples -/

/-- A listed post: author `u1`, starting price 100, auction end at `t = 1000`. -/
def demoPost : Post :=
  { id := "p1", authorId := "u1", isInMarket := true,
    startingPrice := some 100, reservePrice := none, auctionEndAt := some 1000 }

/-- A standing bid of 120 by `u3` on `demoPost`. -/
def demoBid : Bid :=
  { id := "b0", postId := "p1", bidderId := "u3", amount := 120, createdAt := 5 }

/-- Store holding `demoPost` with the single bid `demoBid`. -/
def demoDB : DB := { posts := [demoPost], bids := [demoBid] }

/-- The listed post of the re-bid scenario of spec section 8. -/
def scenPost : Post :=
  { id := "p", authorId := "seller", isInMarket := true,
    startingPrice := some 100, reservePrice := none, auctionEndAt := some 1000000 }

/-- Scenario start: `scenPost` listed, no bids. -/
def scenDB0 : DB := { posts := [scenPost], bids := [] }

/-- After `alice` bids 150 at `t = 10`. -/
def scenDB1 : DB := (placeBid scenDB0 10 "p" "alice" 150 "bidA").snd

/-- After `bob` bids 151 at `t = 20`. -/
def scenDB2 : DB := (placeBid scenDB1 20 "p" "bob" 151 "bidB").snd

/-- After `alice` re-bids 200 at `t = 30` (her row is updated in place,
keeping its original `createdAt` of 10). -/
def scenDB3 : DB := (placeBid scenDB2 30 "p" "alice" 200 "bidC").snd

/-- An unlisted post with all market fields null. -/
def plainPost : Post :=
  { id := "q", authorId := "u1", isInMarket := false,
    startingPrice := none, reservePrice := none, auctionEndAt := none }

/-- Store holding only the unlisted `plainPost`. -/
def plainDB : DB := { posts := [plainPost], bids := [] }

/-- A post that is in market but has a null `auctionEndAt`. -/
def noEndPost : Post :=
  { id := "r", authorId := "u1", isInMarket := true,
    startingPrice := some 50, reservePrice := none, auctionEndAt := none }

/-- Store holding only `noEndPost`, with no bids. -/
def noEndDB : DB := { posts := [noEndPost], bids := [] }

/-! ## Helper lemmas -/

/-- The head of a descending sort is an element with maximal key. -/
theorem head_sortByDesc_max {α β : Type} [LinearOrder β] (key : α → β)
    (l : List α) (x : α) (h : (sortByDesc key l).head? = some x) :
    x ∈ l ∧ ∀ y ∈ l, key y ≤ key x := by
  have hperm : (sortByDesc key l).Perm l := List.perm_insertionSort _ l
  haveI : IsTotal α (fun a b => key b ≤ key a) :=
    ⟨fun a b => le_total (key b) (key a)⟩
  haveI : IsTrans α (fun a b => key b ≤ key a) :=
    ⟨fun a b c hab hbc => le_trans hbc hab⟩
  have hsorted : List.Sorted (fun a b => key b ≤ key a) (sortByDesc key l) :=
    List.sorted_insertionSort _ l
  rcases hl : sortByDesc key l with _ | ⟨z, zs⟩
  · rw [hl] at h; simp at h
  · rw [hl] at h
    simp only [List.head?_cons, Option.some.injEq] at h
    subst h
    constructor
    · exact hperm.mem_iff.mp (by rw [hl]; exact List.mem_cons_self _ _)
    · intro y hy
      have hmem : y ∈ sortByDesc key l := hperm.mem_iff.mpr hy
      rw [hl] at hmem
      rcases List.mem_cons.mp hmem with rfl | hmem
      · exact le_refl _
      · rw [hl] at hsorted
        exact List.rel_of_sorted_cons hsorted y hmem

/-- A descending sort with no head sorts the empty list. -/
theorem sortByDesc_none {α β : Type} [LinearOrder β] (key : α → β)
    (l : List α) (h : (sortByDesc key l).head? = none) : l = [] := by
  have hperm : (sortByDesc key l).Perm l := List.perm_insertionSort _ l
  rw [List.head?_eq_none_iff] at h
  rw [h] at hperm
  exact hperm.symm.eq_nil

/-- The head of the amount-descending bid list is a bid of the post with
maximal amount. -/
theorem bidsByAmountDesc_head_max (db : DB) (pid : String) (b : Bid)
    (h : (bidsByAmountDesc db pid).head? = some b) :
    b ∈ postBids db pid ∧ ∀ b' ∈ postBids db pid, b'.amount ≤ b.amount := by
  unfold bidsByAmountDesc at h
  exact head_sortByDesc_max (fun b => b.amount) (postBids db pid) b h

/-- If the amount-descending bid list is empty, the post has no bids. -/
theorem bidsByAmountDesc_head_none (db : DB) (pid : String)
    (h : (bidsByAmountDesc db pid).head? = none) : postBids db pid = [] := by
  unfold bidsByAmountDesc at h
  exact sortByDesc_none (fun b => b.amount) (postBids db pid) h

/-- Under the spec-side characterisation of `currentHighest`, the value the
code compares against is exactly `ch`. -/
theorem currentHighestOr0_eq (db : DB) (pid : String) (post : Post) (ch : Rat)
    (hmax : postBids db pid ≠ [] → maxAmountIs db pid ch)
    (hempty : postBids db pid = [] → post.startingPrice = some ch) :
    currentHighestOr0 db pid post = ch := by
  unfold currentHighestOr0 currentHighestBid?
  rcases hh : (bidsByAmountDesc db pid).head? with _ | b
  · rw [hempty (bidsByAmountDesc_head_none db pid hh)]
    rfl
  · obtain ⟨hbmem, hub⟩ := bidsByAmountDesc_head_max db pid b hh
    have hne : postBids db pid ≠ [] := by
      intro hc; rw [hc] at hbmem; exact absurd hbmem (List.not_mem_nil _)
    obtain ⟨⟨b', hb'mem, hb'amt⟩, hub'⟩ := hmax hne
    have h1 : b.amount ≤ ch := hub' b hbmem
    have h2 : ch ≤ b.amount := hb'amt ▸ hub b' hb'mem
    simp [le_antisymm h1 h2]

/-- `recordBid` never touches the `posts` table. -/
theorem recordBid_posts (db : DB) (now : Int) (pid uid : String) (amount : Rat)
    (newId : String) : ((recordBid db now pid uid amount newId).snd).posts = db.posts := by
  unfold recordBid
  split <;> rfl

/-- `placeBid` never touches the `posts` table. -/
theorem placeBid_posts (db : DB) (now : Int) (pid uid : String) (amount : Rat)
    (newId : String) : ((placeBid db now pid uid amount newId).snd).posts = db.posts := by
  unfold placeBid
  split
  · rfl
  · split
    · rfl
    · split
      · rfl
      · split
        · rfl
        · split
          · rfl
          · split
            · rfl
            · exact recordBid_posts db now pid uid amount newId

/-- Every stored bid of a post is bounded by the value the code compares
new bids against. -/
theorem currentHighestOr0_ub (db : DB) (pid : String) (post : Post) :
    ∀ b ∈ postBids db pid, b.amount ≤ currentHighestOr0 db pid post := by
  intro b hb
  unfold currentHighestOr0 currentHighestBid?
  rcases hh : (bidsByAmountDesc db pid).head? with _ | hbid
  · rw [bidsByAmountDesc_head_none db pid hh] at hb
    exact absurd hb (List.not_mem_nil _)
  · simpa using (bidsByAmountDesc_head_max db pid hbid hh).2 b hb

/-- When the post exists, is listed, the caller is not the author, the
amount is positive and the auction has not expired, `placeBid` reduces to
the price comparison followed by the write. -/
theorem placeBid_eval (db : DB) (now : Int) (pid uid : String) (amount : Rat)
    (newId : String) (post : Post)
    (hfind : findPost? db pid = some post)
    (h0 : ¬ amount ≤ 0)
    (hmkt : post.isInMarket = true)
    (hauth : ¬ post.authorId = uid)
    (hexp : auctionExpired post now = false) :
    placeBid db now pid uid amount newId =
      if amount ≤ currentHighestOr0 db pid post then (.error .bidTooLow, db)
      else recordBid db now pid uid amount newId := by
  simp only [placeBid, hfind, hmkt, hexp, if_neg h0, if_neg hauth]
  simp

/-- The write step always reports success. -/
theorem recordBid_isOk (db : DB) (now : Int) (pid uid : String) (amount : Rat)
    (newId : String) : ((recordBid db now pid uid amount newId).fst).isOk = true := by
  unfold recordBid
  split <;> rfl

/-- If the new amount strictly exceeds every stored amount of the post,
then after the write (update in place or insert) the maximum stored amount
of the post is exactly the new amount. -/
theorem recordBid_maxAmountIs (db : DB) (now : Int) (pid uid : String)
    (amount : Rat) (newId : String)
    (hlt : ∀ b ∈ postBids db pid, b.amount < amount) :
    maxAmountIs ((recordBid db now pid uid amount newId).snd) pid amount := by
  unfold recordBid
  rcases hfb : db.bids.find? (fun b => b.postId == pid && b.bidderId == uid) with _ | eb
  all_goals simp only [hfb]
  · have hpb : postBids { db with bids := db.bids ++
        [{ id := newId, postId := pid, bidderId := uid,
           amount := amount, createdAt := now }] } pid =
        postBids db pid ++
        [{ id := newId, postId := pid, bidderId := uid,
           amount := amount, createdAt := now }] := by
      unfold postBids
      rw [List.filter_append]
      simp
    constructor
    · exact ⟨_, by rw [hpb]; exact List.mem_append_right _ (List.mem_singleton.mpr rfl), rfl⟩
    · intro b hb
      rw [hpb] at hb
      rcases List.mem_append.mp hb with h | h
      · exact le_of_lt (hlt b h)
      · rw [List.mem_singleton.mp h]
  · have hkey : ∀ b : Bid,
        ((if b.id == eb.id then { b with amount := amount } else b) : Bid).postId = b.postId := by
      intro b
      by_cases hid : (b.id == eb.id) = true
      · simp [hid]
      · simp [hid]
    have hpb : postBids { db with bids := db.bids.map (fun b =>
        if b.id == eb.id then { b with amount := amount } else b) } pid =
        (postBids db pid).map (fun b =>
        if b.id == eb.id then { b with amount := amount } else b) := by
      unfold postBids
      rw [List.filter_map]
      congr 1
      apply List.filter_congr
      intro b _
      simp only [Function.comp]
      rw [hkey b]
    have hebmem : eb ∈ postBids db pid := by
      unfold postBids
      refine List.mem_filter.mpr ⟨List.mem_of_find?_eq_some hfb, ?_⟩
      have h := List.find?_some hfb
      rw [Bool.and_eq_true] at h
      exact h.1
    constructor
    · refine ⟨{ eb with amount := amount }, ?_, rfl⟩
      rw [hpb]
      have heq : (if eb.id == eb.id then { eb with amount := amount } else eb) =
          { eb with amount := amount } := by simp
      exact heq ▸ List.mem_map_of_mem _ hebmem
    · intro b hb
      rw [hpb] at hb
      obtain ⟨a, ha, rfl⟩ := List.mem_map.mp hb
      by_cases hid : (a.id == eb.id) = true
      · simp [hid]
      · simp [hid]
        exact le_of_lt (hlt a ha)

/-! ## Claim theorems -/

/-- C1: on an existing in-market post, bid by a non-author before expiry:
the bid is accepted iff its amount strictly exceeds `currentHighest`
(the maximum amount over all existing bids, or the starting price when no
bid exists — always positive in reachable states, since listing validates
`startingPrice > 0` and every accepted bid exceeds it), and a bid equal to
`currentHighest` is rejected as bid-too-low. -/
theorem placeBid_accept_iff_above_current_highest (db : DB) (now : Int)
    (pid uid newId : String) (amount ch : Rat) (post : Post)
    (hfind : findPost? db pid = some post)
    (hmkt : post.isInMarket = true)
    (hauth : ¬ post.authorId = uid)
    (hexp : ∀ e, post.auctionEndAt = some e → now ≤ e)
    (hmax : postBids db pid ≠ [] → maxAmountIs db pid ch)
    (hempty : postBids db pid = [] → post.startingPrice = some ch)
    (hpos : 0 < ch) :
    (((placeBid db now pid uid amount newId).fst).isOk = true ↔ ch < amount) ∧
    (amount = ch →
      (placeBid db now pid uid amount newId).fst = .error .bidTooLow) := by
  have hch : currentHighestOr0 db pid post = ch :=
    currentHighestOr0_eq db pid post ch hmax hempty
  have hexp' : auctionExpired post now = false := by
    unfold auctionExpired
    rcases he : post.auctionEndAt with _ | e
    · rfl
    · simp [decide_eq_false (not_lt.mpr (hexp e he))]
  constructor
  · constructor
    · intro hok
      by_contra hnle
      push_neg at hnle
      by_cases h0 : amount ≤ 0
      · have hbad : (placeBid db now pid uid amount newId).fst = .error .invalidAmount := by
          unfold placeBid
          rw [if_pos h0]
        rw [hbad] at hok
        simp [Except.isOk, Except.toBool] at hok
      · have heval := placeBid_eval db now pid uid amount newId post hfind h0 hmkt hauth hexp'
        rw [heval, if_pos (hch ▸ hnle)] at hok
        simp [Except.isOk, Except.toBool] at hok
    · intro hlt
      have h0 : ¬ amount ≤ 0 := not_le.mpr (lt_trans hpos hlt)
      have heval := placeBid_eval db now pid uid amount newId post hfind h0 hmkt hauth hexp'
      rw [heval, if_neg (by rw [hch]; exact not_le.mpr hlt)]
      exact recordBid_isOk db now pid uid amount newId
  · intro heq
    have h0 : ¬ amount ≤ 0 := not_le.mpr (heq ▸ hpos)
    have heval := placeBid_eval db now pid uid amount newId post hfind h0 hmkt hauth hexp'
    rw [heval, if_pos (by rw [hch, heq])]

/-- C1 witness: on `demoDB` (starting price 100, standing bid 120) at time
10, a bid of 121 by `u2` is accepted and a bid of exactly 120 is rejected
as bid-too-low. -/
theorem placeBid_accept_iff_above_current_highest_witness :
    ((placeBid demoDB 10 "p1" "u2" 121 "b1").fst).isOk = true ∧
    (placeBid demoDB 10 "p1" "u2" 120 "b2").fst = .error .bidTooLow := by
  constructor
  · exact (placeBid_accept_iff_above_current_highest demoDB 10 "p1" "u2" "b1" 121 120
      demoPost (by decide) (by decide) (by decide)
      (fun e he => by injection he with h; rw [← h]; decide)
      (fun _ => by decide) (fun h => absurd h (by decide)) (by decide)).1.mpr (by decide)
  · exact (placeBid_accept_iff_above_current_highest demoDB 10 "p1" "u2" "b2" 120 120
      demoPost (by decide) (by decide) (by decide)
      (fun e he => by injection he with h; rw [← h]; decide)
      (fun _ => by decide) (fun h => absurd h (by decide)) (by decide)).2 rfl

/-- C2: the maximum stored bid amount is non-decreasing across accepted
calls — after an accepted call it equals the accepted amount, which
strictly exceeds every previously stored amount — and every rejected call
returns the store unchanged (no row mutated on any failure path). -/
theorem placeBid_monotone_max_and_pure_rejection (db : DB) (now : Int)
    (pid uid : String) (amount : Rat) (newId : String) :
    (((placeBid db now pid uid amount newId).fst).isOk = false →
      (placeBid db now pid uid amount newId).snd = db) ∧
    (((placeBid db now pid uid amount newId).fst).isOk = true →
      maxAmountIs ((placeBid db now pid uid amount newId).snd) pid amount ∧
      ∀ b ∈ postBids db pid, b.amount < amount) := by
  have aux : ∀ r : Except BidError Bid × DB,
      placeBid db now pid uid amount newId = r →
      (r.fst.isOk = false → r.snd = db) ∧
      (r.fst.isOk = true →
        maxAmountIs r.snd pid amount ∧ ∀ b ∈ postBids db pid, b.amount < amount) := by
    intro r hr
    unfold placeBid at hr
    split at hr
    · subst hr
      exact ⟨fun _ => rfl, fun h => by simp [Except.isOk, Except.toBool] at h⟩
    · split at hr
      · subst hr
        exact ⟨fun _ => rfl, fun h => by simp [Except.isOk, Except.toBool] at h⟩
      · split at hr
        · subst hr
          exact ⟨fun _ => rfl, fun h => by simp [Except.isOk, Except.toBool] at h⟩
        · split at hr
          · subst hr
            exact ⟨fun _ => rfl, fun h => by simp [Except.isOk, Except.toBool] at h⟩
          · split at hr
            · subst hr
              exact ⟨fun _ => rfl, fun h => by simp [Except.isOk, Except.toBool] at h⟩
            · split at hr
              · subst hr
                exact ⟨fun _ => rfl, fun h => by simp [Except.isOk, Except.toBool] at h⟩
              · rename_i post hfind hmkt hauth hexp hgt
                subst hr
                have hlt : ∀ b ∈ postBids db pid, b.amount < amount := fun b hb =>
                  lt_of_le_of_lt (currentHighestOr0_ub db pid post b hb) (not_le.mp hgt)
                refine ⟨fun hfalse => ?_, fun _ =>
                  ⟨recordBid_maxAmountIs db now pid uid amount newId hlt, hlt⟩⟩
                rw [recordBid_isOk] at hfalse
                cases hfalse
  exact aux _ rfl

/-- C2 witness: on `demoDB`, a rejected call (equal bid of 120) leaves the
store unchanged, and an accepted call of 130 makes 130 the stored maximum. -/
theorem placeBid_monotone_max_and_pure_rejection_witness :
    (placeBid demoDB 10 "p1" "u2" 120 "b2").snd = demoDB ∧
    maxAmountIs ((placeBid demoDB 10 "p1" "u2" 130 "b1").snd) "p1" 130 := by
  constructor
  · exact (placeBid_monotone_max_and_pure_rejection demoDB 10 "p1" "u2" 120 "b2").1 (by decide)
  · exact ((placeBid_monotone_max_and_pure_rejection demoDB 10 "p1" "u2" 130 "b1").2 (by decide)).1

/-- C3 counterexample: the expiry check uses a strict `now > auctionEndAt`
comparison, so at `now = auctionEndAt` (here both 1000) an otherwise valid
bid is accepted rather than rejected as auction-ended. -/
theorem placeBid_at_exact_expiry_is_accepted :
    demoPost.auctionEndAt = some 1000 ∧
    ((placeBid demoDB 1000 "p1" "u2" 150 "b9").fst).isOk = true := by decide

/-- C3 (amended): a bid on a post whose end timestamp is set is rejected
as auction-ended exactly when `now` is strictly past `auctionEndAt`
(regardless of the post's bids, so also when it would have been the only
bid); at `now = auctionEndAt` the call is not rejected for expiry. -/
theorem placeBid_rejects_strictly_after_expiry (db : DB) (now : Int)
    (pid uid newId : String) (amount : Rat) (e : Int) (post : Post)
    (hfind : findPost? db pid = some post)
    (hamt : 0 < amount)
    (hmkt : post.isInMarket = true)
    (hauth : ¬ post.authorId = uid)
    (hend : post.auctionEndAt = some e) :
    (e < now →
      (placeBid db now pid uid amount newId).fst = .error .auctionEnded ∧
      (placeBid db now pid uid amount newId).snd = db) ∧
    (now ≤ e →
      (placeBid db now pid uid amount newId).fst ≠ .error .auctionEnded) := by
  have h0 : ¬ amount ≤ 0 := not_le.mpr hamt
  constructor
  · intro hlt
    have hexp : auctionExpired post now = true := by
      unfold auctionExpired; rw [hend]; exact decide_eq_true hlt
    have hres : placeBid db now pid uid amount newId = (.error .auctionEnded, db) := by
      simp only [placeBid, hfind, hmkt, hexp, if_neg h0, if_neg hauth]
      simp
    rw [hres]
    exact ⟨rfl, rfl⟩
  · intro hle
    have hexp : auctionExpired post now = false := by
      unfold auctionExpired; rw [hend]; exact decide_eq_false (not_lt.mpr hle)
    have heval := placeBid_eval db now pid uid amount newId post hfind h0 hmkt hauth hexp
    rw [heval]
    by_cases hcmp : amount ≤ currentHighestOr0 db pid post
    · rw [if_pos hcmp]
      simp
    · rw [if_neg hcmp]
      intro hcontra
      have hok := recordBid_isOk db now pid uid amount newId
      rw [hcontra] at hok
      simp [Except.isOk, Except.toBool] at hok

/-- C3 witness: a bid at time 2000 on `demoPost` (ends at 1000) is
rejected as auction-ended. -/
theorem placeBid_rejects_strictly_after_expiry_witness :
    (placeBid demoDB 2000 "p1" "u2" 150 "b1").fst = .error .auctionEnded :=
  ((placeBid_rejects_strictly_after_expiry demoDB 2000 "p1" "u2" "b1" 150 1000 demoPost
    (by decide) (by decide) (by decide) (by decide) (by decide)).1 (by decide)).1

/-- C7 counterexample: the positive-amount validation runs before the
self-bid check, so the author bidding an amount of 0 on their own listed
post is rejected as invalid-amount, not with the self-bid error. -/
theorem placeBid_author_zero_amount_not_self_bid :
    demoPost.authorId = "u1" ∧ demoPost.isInMarket = true ∧
    (placeBid demoDB 10 "p1" "u1" 0 "b1").fst = .error .invalidAmount := by decide

/-- C7 (amended): a `placeBid` call by the post's author never creates or
updates any row (the store is unchanged) and is always rejected; the
rejection carries the self-bid error whenever the amount is positive and
the post is in market (otherwise the earlier invalid-amount or
not-in-market check fires first). -/
theorem placeBid_author_always_rejected (db : DB) (now : Int)
    (pid uid newId : String) (amount : Rat) (post : Post)
    (hfind : findPost? db pid = some post)
    (hauth : post.authorId = uid) :
    (placeBid db now pid uid amount newId).snd = db ∧
    (((placeBid db now pid uid amount newId).fst).isOk = false) ∧
    (0 < amount → post.isInMarket = true →
      (placeBid db now pid uid amount newId).fst = .error .selfBid) := by
  by_cases h0 : amount ≤ 0
  · have hres : placeBid db now pid uid amount newId = (.error .invalidAmount, db) := by
      unfold placeBid
      rw [if_pos h0]
    rw [hres]
    exact ⟨rfl, rfl, fun hpos _ => absurd h0 (not_le.mpr hpos)⟩
  · by_cases hmkt : post.isInMarket = false
    · have hres : placeBid db now pid uid amount newId = (.error .notInMarket, db) := by
        simp only [placeBid, hfind, if_neg h0, hmkt]
        simp
      rw [hres]
      refine ⟨rfl, rfl, fun _ hT => ?_⟩
      rw [hmkt] at hT
      cases hT
    · have hres : placeBid db now pid uid amount newId = (.error .selfBid, db) := by
        simp only [placeBid, hfind, if_neg h0, if_pos hauth]
        simp [hmkt]
      rw [hres]
      exact ⟨rfl, rfl, fun _ _ => rfl⟩

/-- C7 witness: the author of `demoPost` bidding 500 on it is rejected
with the self-bid error. -/
theorem placeBid_author_always_rejected_witness :
    (placeBid demoDB 10 "p1" "u1" 500 "b1").fst = .error .selfBid :=
  (placeBid_author_always_rejected demoDB 10 "p1" "u1" "b1" 500 demoPost
    (by decide) (by decide)).2.2 (by decide) (by decide)

/-- C10: on a listed post whose `auctionEndAt` is null the expiry check is
skipped: the call is never rejected as auction-ended at any time `now`,
and when the remaining checks pass (positive amount, non-author bidder,
amount above the compared current highest) it is accepted. -/
theorem placeBid_null_end_never_expires (db : DB) (now : Int)
    (pid uid newId : String) (amount : Rat) (post : Post)
    (hfind : findPost? db pid = some post)
    (hmkt : post.isInMarket = true)
    (hend : post.auctionEndAt = none) :
    ((placeBid db now pid uid amount newId).fst ≠ .error .auctionEnded) ∧
    (0 < amount → ¬ post.authorId = uid →
      currentHighestOr0 db pid post < amount →
      ((placeBid db now pid uid amount newId).fst).isOk = true) := by
  have hexp : auctionExpired post now = false := by
    unfold auctionExpired; rw [hend]
  constructor
  · by_cases h0 : amount ≤ 0
    · have hres : placeBid db now pid uid amount newId = (.error .invalidAmount, db) := by
        unfold placeBid
        rw [if_pos h0]
      rw [hres]
      simp
    · by_cases hauth : post.authorId = uid
      · have hres : placeBid db now pid uid amount newId = (.error .selfBid, db) := by
          simp only [placeBid, hfind, if_neg h0, if_pos hauth]
          simp [hmkt]
        rw [hres]
        simp
      · have heval := placeBid_eval db now pid uid amount newId post hfind h0 hmkt hauth hexp
        rw [heval]
        by_cases hcmp : amount ≤ currentHighestOr0 db pid post
        · rw [if_pos hcmp]
          simp
        · rw [if_neg hcmp]
          intro hcontra
          have hok := recordBid_isOk db now pid uid amount newId
          rw [hcontra] at hok
          simp [Except.isOk, Except.toBool] at hok
  · intro hamt hauth hgt
    have heval := placeBid_eval db now pid uid amount newId post hfind (not_le.mpr hamt) hmkt hauth hexp
    rw [heval, if_neg (not_le.mpr hgt)]
    exact recordBid_isOk db now pid uid amount newId

/-- C10 witness: a bid of 60 on `noEndPost` (listed, null end timestamp)
is accepted even at a very large wall-clock time. -/
theorem placeBid_null_end_never_expires_witness :
    ((placeBid noEndDB 99999999 "r" "u2" 60 "b1").fst).isOk = true :=
  (placeBid_null_end_never_expires noEndDB 99999999 "r" "u2" "b1" 60 noEndPost
    (by decide) (by decide) (by decide)).2 (by decide) (by decide) (by decide)

/-- C4 (code bug): `getAuctionDetails` takes `bids[0]` of the
createdAt-descending list as `currentHighestBid`.  After the section-8
re-bid scenario (alice 150, bob 151, alice re-bids 200 — her row is
updated in place with its original `createdAt`), the detail view reports
a current bid of 151 and highest bidder `bob`, while the bid with the
maximum amount — the leader — is alice's 200.  The bid list itself is
correctly ordered newest-first. -/
theorem getAuctionDetails_reports_latest_not_highest :
    (((placeBid scenDB2 30 "p" "alice" 200 "bidC").fst).isOk = true) ∧
    scenDB3.bids =
      [ { id := "bidA", postId := "p", bidderId := "alice", amount := 200, createdAt := 10 },
        { id := "bidB", postId := "p", bidderId := "bob", amount := 151, createdAt := 20 } ] ∧
    (getAuctionDetails scenDB3 40 "p").toOption.map (fun d => d.bids.map (fun b => b.id)) =
      some ["bidB", "bidA"] ∧
    (getAuctionDetails scenDB3 40 "p").toOption.map (fun d => d.currentBid) =
      some (some 151) ∧
    (getAuctionDetails scenDB3 40 "p").toOption.map (fun d => d.highestBidderId) =
      some (some "bob") ∧
    maxAmountIs scenDB3 "p" 200 := by decide

/-- After the write step, the number of rows per (post, bidder) pair is
still at most one: an update keeps every key field, and an insert happens
only when the pair had no row. -/
theorem recordBid_atMostOne (db : DB) (now : Int) (pid uid : String)
    (amount : Rat) (newId : String) (h : atMostOneBidPer db) :
    atMostOneBidPer ((recordBid db now pid uid amount newId).snd) := by
  unfold recordBid
  rcases hfb : db.bids.find? (fun b => b.postId == pid && b.bidderId == uid) with _ | eb
  all_goals simp only [hfb]
  · intro pid' uid'
    rw [List.filter_append, List.length_append]
    by_cases hp : pid = pid'
    · by_cases hu : uid = uid'
      · subst hp; subst hu
        have hnone : db.bids.filter (fun b => b.postId == pid && b.bidderId == uid) = [] := by
          rw [List.filter_eq_nil_iff]
          intro b hb hc
          exact (List.find?_eq_none.mp hfb b hb) hc
        rw [hnone]
        simp [List.filter]
      · have hnil : List.filter (fun b : Bid => b.postId == pid' && b.bidderId == uid')
            [{ id := newId, postId := pid, bidderId := uid, amount := amount, createdAt := now }] = [] := by
          simp [List.filter, beq_eq_false_iff_ne.mpr hu]
        rw [hnil]
        simp only [List.length_nil, Nat.add_zero]
        exact h pid' uid'
    · have hnil : List.filter (fun b : Bid => b.postId == pid' && b.bidderId == uid')
          [{ id := newId, postId := pid, bidderId := uid, amount := amount, createdAt := now }] = [] := by
        simp [List.filter, beq_eq_false_iff_ne.mpr hp]
      rw [hnil]
      simp only [List.length_nil, Nat.add_zero]
      exact h pid' uid'
  · intro pid' uid'
    rw [List.filter_map, List.length_map]
    refine le_trans (le_of_eq ?_) (h pid' uid')
    congr 1
    apply List.filter_congr
    intro b _
    simp only [Function.comp]
    by_cases hid : (b.id == eb.id) = true
    · simp [hid]
    · simp [hid]

/-- When the bidder already has a row on the post, the write updates the
amount in place: every id, post, bidder and creation timestamp in the bid
table is unchanged. -/
theorem recordBid_update_keeps_rows (db : DB) (now : Int) (pid uid : String)
    (amount : Rat) (newId : String)
    (hex : ∃ b0 ∈ db.bids, b0.postId = pid ∧ b0.bidderId = uid) :
    ((recordBid db now pid uid amount newId).snd).bids.map
        (fun b => (b.id, b.postId, b.bidderId, b.createdAt)) =
      db.bids.map (fun b => (b.id, b.postId, b.bidderId, b.createdAt)) := by
  obtain ⟨b0, hb0, hbp, hbu⟩ := hex
  unfold recordBid
  rcases hfb : db.bids.find? (fun b => b.postId == pid && b.bidderId == uid) with _ | eb
  · exact absurd (by simp [hbp, hbu] :
      ((fun b : Bid => b.postId == pid && b.bidderId == uid) b0) = true)
      (List.find?_eq_none.mp hfb b0 hb0)
  · simp only [hfb]
    rw [List.map_map]
    apply List.map_congr_left
    intro b _
    simp only [Function.comp]
    by_cases hid : (b.id == eb.id) = true
    · simp [hid]
    · simp [hid]

/-- C5: `placeBid` preserves the at-most-one-row-per-(post, bidder)
invariant, and when the bidder already has a row on the post an accepted
(or any) call never inserts: every row's identity fields are unchanged —
only an amount can change. -/
theorem placeBid_at_most_one_bid_per_pair (db : DB) (now : Int) (pid uid : String)
    (amount : Rat) (newId : String) (h : atMostOneBidPer db) :
    atMostOneBidPer ((placeBid db now pid uid amount newId).snd) ∧
    ((∃ b0 ∈ db.bids, b0.postId = pid ∧ b0.bidderId = uid) →
      ((placeBid db now pid uid amount newId).snd).bids.map
          (fun b => (b.id, b.postId, b.bidderId, b.createdAt)) =
        db.bids.map (fun b => (b.id, b.postId, b.bidderId, b.createdAt))) := by
  have aux : ∀ r : Except BidError Bid × DB,
      placeBid db now pid uid amount newId = r →
      atMostOneBidPer r.snd ∧
      ((∃ b0 ∈ db.bids, b0.postId = pid ∧ b0.bidderId = uid) →
        r.snd.bids.map (fun b => (b.id, b.postId, b.bidderId, b.createdAt)) =
          db.bids.map (fun b => (b.id, b.postId, b.bidderId, b.createdAt))) := by
    intro r hr
    unfold placeBid at hr
    split at hr
    · subst hr; exact ⟨h, fun _ => rfl⟩
    · split at hr
      · subst hr; exact ⟨h, fun _ => rfl⟩
      · split at hr
        · subst hr; exact ⟨h, fun _ => rfl⟩
        · split at hr
          · subst hr; exact ⟨h, fun _ => rfl⟩
          · split at hr
            · subst hr; exact ⟨h, fun _ => rfl⟩
            · split at hr
              · subst hr; exact ⟨h, fun _ => rfl⟩
              · subst hr
                exact ⟨recordBid_atMostOne db now pid uid amount newId h,
                       recordBid_update_keeps_rows db now pid uid amount newId⟩
  exact aux _ rfl

/-- C5 witness: `u3` re-bids 130 on `demoDB` (where `u3` already holds the
standing bid of 120): the invariant still holds afterwards and no row was
inserted — all identity fields are as before. -/
theorem placeBid_at_most_one_bid_per_pair_witness :
    atMostOneBidPer ((placeBid demoDB 10 "p1" "u3" 130 "bX").snd) ∧
    ((placeBid demoDB 10 "p1" "u3" 130 "bX").snd).bids.map
        (fun b => (b.id, b.postId, b.bidderId, b.createdAt)) =
      demoDB.bids.map (fun b => (b.id, b.postId, b.bidderId, b.createdAt)) := by
  have hbase : atMostOneBidPer demoDB := by
    intro pid uid
    exact List.length_filter_le _ _
  have happ := placeBid_at_most_one_bid_per_pair demoDB 10 "p1" "u3" 130 "bX" hbase
  exact ⟨happ.1, happ.2 ⟨demoBid, by decide, by decide, by decide⟩⟩

/-- Updating rows by id with a function that keeps `id` and `authorId`
commutes with the owned-post lookup. -/
theorem findOwnedPost?_updatePost (db : DB) (pid uid : String) (f : Post → Post)
    (hf : ∀ q, (f q).id = q.id ∧ (f q).authorId = q.authorId) :
    findOwnedPost? (updatePost db pid f) pid uid =
      (findOwnedPost? db pid uid).map (fun q => if q.id == pid then f q else q) := by
  unfold findOwnedPost? updatePost
  rw [List.find?_map]
  have hpred : ((fun q : Post => q.id == pid && q.authorId == uid) ∘
      (fun q : Post => if q.id == pid then f q else q)) =
      (fun q : Post => q.id == pid && q.authorId == uid) := by
    funext q
    by_cases hid : (q.id == pid) = true
    · simp [Function.comp, hid, (hf q).1, (hf q).2]
    · simp [Function.comp, hid]
  rw [hpred]

/-- C6: an unlisted post (all market fields null) that is successfully
listed and then — with zero bids — successfully unlisted is returned to
exactly its original state, and the bid table is untouched. -/
theorem list_unlist_roundtrip (db : DB) (now : Int) (pid uid : String)
    (sp : Rat) (rp : Option Rat) (dur : Rat) (post : Post)
    (hfind : findOwnedPost? db pid uid = some post)
    (hunlisted : post.isInMarket = false)
    (hsp0 : post.startingPrice = none)
    (hrp0 : post.reservePrice = none)
    (hend0 : post.auctionEndAt = none)
    (hsp : 0 < sp) (hdur : 0 < dur)
    (hnobids : postBids db pid = []) :
    (((moveToMarket db now pid uid sp rp dur).fst).isOk = true) ∧
    (((removeFromMarket (moveToMarket db now pid uid sp rp dur).snd pid uid).fst).isOk = true) ∧
    findOwnedPost? (removeFromMarket (moveToMarket db now pid uid sp rp dur).snd pid uid).snd pid uid
      = some post ∧
    (removeFromMarket (moveToMarket db now pid uid sp rp dur).snd pid uid).snd.bids = db.bids := by
  have hpid : (post.id == pid) = true := by
    have hsome := List.find?_some (p := fun p : Post => p.id == pid && p.authorId == uid) hfind
    rw [Bool.and_eq_true] at hsome
    exact hsome.1
  have key : moveToMarket db now pid uid sp rp dur =
      (.ok (listFields sp rp (now + ⌊dur * 3600000⌋) post),
       updatePost db pid (listFields sp rp (now + ⌊dur * 3600000⌋))) := by
    simp only [moveToMarket, hfind, if_neg (not_le.mpr hsp), if_neg (not_le.mpr hdur), hunlisted]
    simp
  rw [key]
  have hfg : ∀ q : Post,
      (listFields sp rp (now + ⌊dur * 3600000⌋) q).id = q.id ∧
      (listFields sp rp (now + ⌊dur * 3600000⌋) q).authorId = q.authorId :=
    fun q => ⟨rfl, rfl⟩
  have hfind1 : findOwnedPost? (updatePost db pid (listFields sp rp (now + ⌊dur * 3600000⌋))) pid uid =
      some (listFields sp rp (now + ⌊dur * 3600000⌋) post) := by
    rw [findOwnedPost?_updatePost db pid uid _ hfg, hfind]
    simp only [Option.map_some']
    rw [if_pos hpid]
  have hpb1 : postBids (updatePost db pid (listFields sp rp (now + ⌊dur * 3600000⌋))) pid = [] :=
    hnobids
  have key2 : removeFromMarket (updatePost db pid (listFields sp rp (now + ⌊dur * 3600000⌋))) pid uid =
      (.ok (clearMarket (listFields sp rp (now + ⌊dur * 3600000⌋) post)),
       updatePost (updatePost db pid (listFields sp rp (now + ⌊dur * 3600000⌋))) pid clearMarket) := by
    simp only [removeFromMarket, hfind1, hpb1]
    have h1 : ¬ ((listFields sp rp (now + ⌊dur * 3600000⌋) post).isInMarket = false) := by
      simp [listFields]
    have h2 : ¬ (0 < ([] : List Bid).length) := by simp
    rw [if_neg h1, if_neg h2]
  rw [key2]
  have hclear : clearMarket (listFields sp rp (now + ⌊dur * 3600000⌋) post) = post := by
    unfold clearMarket listFields
    rcases post with ⟨i, a, m, s, r, e⟩
    simp only at hunlisted hsp0 hrp0 hend0
    simp [hunlisted, hsp0, hrp0, hend0]
  have hfinal : findOwnedPost? (updatePost (updatePost db pid
      (listFields sp rp (now + ⌊dur * 3600000⌋))) pid clearMarket) pid uid = some post := by
    rw [findOwnedPost?_updatePost _ pid uid clearMarket (fun q => ⟨rfl, rfl⟩), hfind1]
    simp only [Option.map_some']
    rw [if_pos (show ((listFields sp rp (now + ⌊dur * 3600000⌋) post).id == pid) = true from hpid)]
    rw [hclear]
  exact ⟨rfl, rfl, hfinal, rfl⟩

/-- C6 witness: `plainPost` listed at price 100 for 24 hours and then
unlisted is found again in exactly its original all-null state. -/
theorem list_unlist_roundtrip_witness :
    findOwnedPost?
      (removeFromMarket (moveToMarket plainDB 0 "q" "u1" 100 none 24).snd "q" "u1").snd
      "q" "u1" = some plainPost :=
  (list_unlist_roundtrip plainDB 0 "q" "u1" 100 none 24 plainPost
    (by decide) (by decide) (by decide) (by decide) (by decide)
    (by decide) (by decide) (by decide)).2.2.1

/-- Updating rows by id preserves the Post invariant when the update
function always produces an invariant-satisfying row. -/
theorem DBWF_updatePost (db : DB) (pid : String) (f : Post → Post)
    (h : DBWF db) (hf : ∀ q, PostWF (f q)) : DBWF (updatePost db pid f) := by
  intro p hp
  obtain ⟨q, hq, rfl⟩ := List.mem_map.mp hp
  by_cases hid : (q.id == pid) = true
  · rw [if_pos hid]
    exact hf q
  · rw [if_neg hid]
    exact h q hq

/-- The fields written by a successful listing satisfy the Post invariant. -/
theorem PostWF_listFields (sp : Rat) (rp : Option Rat) (endAt : Int) (q : Post) :
    PostWF (listFields sp rp endAt q) := by
  unfold PostWF listFields
  simp

/-- The fields written by a successful unlisting satisfy the Post invariant. -/
theorem PostWF_clearMarket (q : Post) : PostWF (clearMarket q) := by
  unfold PostWF clearMarket
  simp

/-- C8: the three mutating operations preserve the Post invariant
(`isInMarket` iff starting price and end timestamp populated; all three
market fields null when unlisted); the read-side operations do not write
at all. -/
theorem market_ops_preserve_post_invariant (db : DB) (now : Int) (pid uid : String)
    (sp : Rat) (rp : Option Rat) (dur : Rat) (amount : Rat) (newId : String)
    (h : DBWF db) :
    DBWF ((moveToMarket db now pid uid sp rp dur).snd) ∧
    DBWF ((removeFromMarket db pid uid).snd) ∧
    DBWF ((placeBid db now pid uid amount newId).snd) := by
  refine ⟨?_, ?_, ?_⟩
  · have aux : ∀ r : Except ListError Post × DB,
        moveToMarket db now pid uid sp rp dur = r → DBWF r.snd := by
      intro r hr
      unfold moveToMarket at hr
      split at hr
      · subst hr; exact h
      · split at hr
        · subst hr; exact h
        · split at hr
          · subst hr; exact h
          · split at hr
            · subst hr; exact h
            · subst hr
              exact DBWF_updatePost db pid _ h (fun q => PostWF_listFields sp rp _ q)
    exact aux _ rfl
  · have aux : ∀ r : Except UnlistError Post × DB,
        removeFromMarket db pid uid = r → DBWF r.snd := by
      intro r hr
      unfold removeFromMarket at hr
      split at hr
      · subst hr; exact h
      · split at hr
        · subst hr; exact h
        · split at hr
          · subst hr; exact h
          · subst hr
            exact DBWF_updatePost db pid _ h PostWF_clearMarket
    exact aux _ rfl
  · intro p hp
    rw [placeBid_posts] at hp
    exact h p hp

/-- C8 witness: listing `plainPost` (with a reserve), unlisting `demoPost`,
and bidding on `demoPost` each leave every stored post invariant-correct. -/
theorem market_ops_preserve_post_invariant_witness :
    DBWF ((moveToMarket plainDB 0 "q" "u1" 100 (some 5) 24).snd) ∧
    DBWF ((removeFromMarket demoDB "p1" "u1").snd) ∧
    DBWF ((placeBid demoDB 10 "p1" "u2" 130 "b1").snd) :=
  ⟨(market_ops_preserve_post_invariant plainDB 0 "q" "u1" 100 (some 5) 24 130 "b1" (by decide)).1,
   (market_ops_preserve_post_invariant demoDB 10 "p1" "u1" 100 none 24 130 "b1" (by decide)).2.1,
   (market_ops_preserve_post_invariant demoDB 10 "p1" "u2" 100 none 24 130 "b1" (by decide)).2.2⟩

/-- C9: the "highest sale" of `getMarketStats` is an ended in-market post
that maximises the number of bids over all ended in-market posts (ranking
by bid count, not amount), and its reported `finalPrice` is the maximum
bid amount among that post's own bids (0 when it has none). -/
theorem getMarketStats_highest_sale_ranked_by_bid_count (db : DB) (now : Int)
    (post : Post) (finalPrice : Rat)
    (h : (getMarketStats db now).highestSale = some (post, finalPrice)) :
    post ∈ db.posts ∧
    isEndedListing now post = true ∧
    (∀ q ∈ db.posts, isEndedListing now q = true →
      bidCount db q.id ≤ bidCount db post.id) ∧
    (postBids db post.id = [] → finalPrice = 0) ∧
    (postBids db post.id ≠ [] → maxAmountIs db post.id finalPrice) := by
  unfold getMarketStats at h
  simp only [Option.map_eq_some'] at h
  obtain ⟨p', hp', hF⟩ := h
  rw [Prod.mk.injEq] at hF
  obtain ⟨rfl, hfp⟩ := hF
  obtain ⟨hmem, hub⟩ := head_sortByDesc_max (fun p => bidCount db p.id)
    (db.posts.filter (isEndedListing now)) p' hp'
  have hmemdb := (List.mem_filter.mp hmem).1
  have hended := (List.mem_filter.mp hmem).2
  refine ⟨hmemdb, hended, ?_, ?_, ?_⟩
  · intro q hq hqe
    exact hub q (List.mem_filter.mpr ⟨hq, hqe⟩)
  · intro hnil
    rcases hh : (bidsByAmountDesc db p'.id).head? with _ | b
    · rw [hh] at hfp
      simp at hfp
      exact hfp.symm
    · obtain ⟨hbmem, _⟩ := bidsByAmountDesc_head_max db p'.id b hh
      rw [hnil] at hbmem
      exact absurd hbmem (List.not_mem_nil _)
  · intro hne
    rcases hh : (bidsByAmountDesc db p'.id).head? with _ | b
    · exact absurd (bidsByAmountDesc_head_none db p'.id hh) hne
    · obtain ⟨hbmem, hbub⟩ := bidsByAmountDesc_head_max db p'.id b hh
      rw [hh] at hfp
      simp at hfp
      rw [← hfp]
      exact ⟨⟨b, hbmem, rfl⟩, hbub⟩

/-- C9 witness: in the ended scenario store, the highest sale is the
scenario post with final price 200, which is the maximum amount among its
bids. -/
theorem getMarketStats_highest_sale_ranked_by_bid_count_witness :
    maxAmountIs scenDB3 "p" 200 :=
  (getMarketStats_highest_sale_ranked_by_bid_count scenDB3 2000000 scenPost 200
    (by decide)).2.2.2.2 (by decide)

end AoMarket
